import Mathlib

/-!
Verification development for the `seri` JSON serialization library
(`include/seri/seri.hpp`).  The C++ header is shallowly embedded:

* `json_writer` is a record holding an output buffer (a list of
  characters, modelling `std::string`); its `write` overloads and
  `write_escaped` are Lean functions on that record.
* `serialize` is translated as a function from a deep embedding
  `Value` of the serializable value shapes (booleans, integrals,
  strings, enums, maps, sequences, optionals, expected, variants,
  reflectable records) to an `Except` result: a thrown
  `serialization_error` is modelled as an error value carrying the
  writer state at the throw point (the C++ writer is passed by
  reference, so its buffer at the moment of the throw is what the
  caller observes).
* the compile-time `if constexpr` dispatch of `serialize` is modelled
  over a type skeleton `Ty` together with boolean predicates that
  translate the concepts `string_like`, `map_like`, `range_like`,
  `optional_like`, `expected_like`, `variant_like` and `reflectable`.
* `std::to_chars` on integers is modelled by `intDecimal` (minimal
  decimal form, leading minus sign for negatives) written into a
  bounded buffer; for floating-point values the digit sequence
  produced by the standard library is abstracted as a parameter while
  the 128-byte bound check and the error flow mirror the source.
-/

namespace Seri

/-- Models `std::source_location` as captured at the throw sites of
the header: a file name and a line number. -/
structure source_location where
  file : String
  line : Nat
deriving DecidableEq, Repr

/-- Models `seri::serialization_error`: a message plus the source
location captured by `std::source_location::current()`. -/
structure serialization_error where
  message : String
  loc : source_location
deriving DecidableEq, Repr

/-- Per-character escaping performed by the `switch` inside
`json_writer::write_escaped`: backslash, double quote, newline,
carriage return and horizontal tab become two-character escape
sequences, every other byte is passed through unchanged. -/
def escapeChars (c : Char) : List Char :=
  if c = '\\' then ['\\', '\\']
  else if c = '"' then ['\\', '"']
  else if c = '\n' then ['\\', 'n']
  else if c = '\r' then ['\\', 'r']
  else if c = '\t' then ['\\', 't']
  else [c]

/-- The escaping loop of `write_escaped` applied to a whole character
sequence. -/
def escapeList (s : List Char) : List Char :=
  s.flatMap escapeChars

/-- Models `seri::json_writer`: the accumulated output buffer
(`std::string buffer`), as a list of characters. -/
structure json_writer where
  buffer : List Char
deriving DecidableEq, Repr

/-- Models `json_writer::write(char)`. -/
def json_writer.write_char (w : json_writer) (c : Char) : json_writer :=
  ⟨w.buffer ++ [c]⟩

/-- Models `json_writer::write(std::string_view)`. -/
def json_writer.write_str (w : json_writer) (s : String) : json_writer :=
  ⟨w.buffer ++ s.data⟩

/-- Models `json_writer::write(std::string_view)` on a raw character
sequence. -/
def json_writer.write_view (w : json_writer) (s : List Char) : json_writer :=
  ⟨w.buffer ++ s⟩

/-- Models `json_writer::write_escaped`: write an opening quote, loop
over the characters appending each one's escape, write a closing
quote. -/
def json_writer.write_escaped (w : json_writer) (s : String) : json_writer :=
  (s.data.foldl (fun acc c => acc.write_view (escapeChars c)) (w.write_char '"')).write_char '"'

theorem escapeList_nil : escapeList [] = [] := by
  simp [escapeList]

theorem escapeList_cons (c : Char) (l : List Char) :
    escapeList (c :: l) = escapeChars c ++ escapeList l := by
  simp [escapeList]

theorem write_escaped_foldl (s : List Char) :
    ∀ w : json_writer,
      (s.foldl (fun acc c => acc.write_view (escapeChars c)) w).buffer
        = w.buffer ++ escapeList s := by
  induction s with
  | nil => intro w; simp [escapeList]
  | cons c rest ih =>
      intro w
      rw [List.foldl_cons, ih, escapeList_cons]
      simp [json_writer.write_view]

/-- Closed form of `write_escaped`: the buffer grows by the quoted,
escaped rendering of the argument. -/
theorem write_escaped_eq (w : json_writer) (s : String) :
    w.write_escaped s = ⟨w.buffer ++ '"' :: escapeList s.data ++ ['"']⟩ := by
  simp [json_writer.write_escaped, json_writer.write_char, write_escaped_foldl]

/-- Decoder for the escape scheme of `write_escaped` (the spec's
"escape sequences decode back" direction): a backslash must be
followed by one of the five escape letters, any other character
stands for itself. -/
def unescape : List Char → Option (List Char)
  | [] => some []
  | c :: rest =>
    if c = '\\' then
      match rest with
      | [] => none
      | d :: rest' =>
        match
          (if d = '\\' then some '\\'
           else if d = '"' then some '"'
           else if d = 'n' then some '\n'
           else if d = 'r' then some '\r'
           else if d = 't' then some '\t'
           else none) with
        | some ch => (unescape rest').map (fun l => ch :: l)
        | none => none
    else (unescape rest).map (fun l => c :: l)

theorem unescape_escapeChars_append (c : Char) (l : List Char) :
    unescape (escapeChars c ++ l) = (unescape l).map (fun t => c :: t) := by
  by_cases h1 : c = '\\'
  · subst h1
    show unescape ('\\' :: '\\' :: l) = _
    conv_lhs => rw [unescape.eq_def]
    simp
  · by_cases h2 : c = '"'
    · subst h2
      show unescape ('\\' :: '"' :: l) = _
      conv_lhs => rw [unescape.eq_def]
      simp
    · by_cases h3 : c = '\n'
      · subst h3
        show unescape ('\\' :: 'n' :: l) = _
        conv_lhs => rw [unescape.eq_def]
        simp
      · by_cases h4 : c = '\r'
        · subst h4
          show unescape ('\\' :: 'r' :: l) = _
          conv_lhs => rw [unescape.eq_def]
          simp
        · by_cases h5 : c = '\t'
          · subst h5
            show unescape ('\\' :: 't' :: l) = _
            conv_lhs => rw [unescape.eq_def]
            simp
          · rw [show escapeChars c ++ l = c :: l by simp [escapeChars, h1, h2, h3, h4, h5]]
            conv_lhs => rw [unescape.eq_def]
            simp [h1]

theorem unescape_escapeList (s : List Char) :
    unescape (escapeList s) = some s := by
  induction s with
  | nil => simp [escapeList, unescape]
  | cons c rest ih =>
      rw [escapeList_cons, unescape_escapeChars_append, ih]
      rfl

/-- Decimal digit character for a value in `[0, 9]`. -/
def digitChar (n : Nat) : Char :=
  Char.ofNat (48 + n)

/-- Fuel-driven most-significant-first decimal digits of a natural
number; `natDecimalAux fuel n` is the digit list of `n` provided
`n ≤ fuel` (empty for `n = 0`). -/
def natDecimalAux : Nat → Nat → List Char
  | 0, _ => []
  | fuel + 1, n =>
      if n = 0 then []
      else natDecimalAux fuel (n / 10) ++ [digitChar (n % 10)]

/-- Minimal decimal form of a natural number, as produced by
`std::to_chars`. -/
def natDecimal (n : Nat) : List Char :=
  if n = 0 then ['0'] else natDecimalAux n n

/-- Minimal decimal form of an integer, as produced by
`std::to_chars`: a leading minus sign for negative values. -/
def intDecimal (v : Int) : List Char :=
  if v < 0 then '-' :: natDecimal v.natAbs else natDecimal v.toNat

theorem natDecimalAux_length_le (fuel : Nat) :
    ∀ n k : Nat, n ≤ fuel → n < 10 ^ k → (natDecimalAux fuel n).length ≤ k := by
  induction fuel with
  | zero => intro n k _ _; simp [natDecimalAux]
  | succ fuel ih =>
      intro n k hle hlt
      by_cases h0 : n = 0
      · simp [natDecimalAux, h0]
      · match k with
        | 0 =>
            exfalso
            exact h0 (Nat.lt_one_iff.mp (by simpa using hlt))
        | k + 1 =>
            have hdivle : n / 10 ≤ fuel := by
              have : n / 10 < n := Nat.div_lt_self (Nat.pos_of_ne_zero h0) (by omega)
              omega
            have hdivlt : n / 10 < 10 ^ k := by
              rw [Nat.div_lt_iff_lt_mul (by omega)]
              calc n < 10 ^ (k + 1) := hlt
                _ = 10 ^ k * 10 := by ring
            have := ih (n / 10) k hdivle hdivlt
            simp only [natDecimalAux, h0, if_false]
            simp only [List.length_append, List.length_cons, List.length_nil]
            omega

theorem natDecimal_length_le (n k : Nat) (hk : 0 < k) (h : n < 10 ^ k) :
    (natDecimal n).length ≤ k := by
  by_cases h0 : n = 0
  · simp [natDecimal, h0]; omega
  · simp only [natDecimal, h0, if_false]
    exact natDecimalAux_length_le n n k (Nat.le_refl n) h

/-- Any integer whose magnitude fits in 64 bits (so any value of a
C++ integer type up to `(u)int64`) has a decimal form of at most 21
characters. -/
theorem intDecimal_length_le (v : Int) (h : v.natAbs < 2 ^ 64) :
    (intDecimal v).length ≤ 21 := by
  have hpow : (2 : Nat) ^ 64 < 10 ^ 20 := by norm_num
  have h20 : v.natAbs < 10 ^ 20 := lt_trans h hpow
  by_cases hneg : v < 0
  · have := natDecimal_length_le v.natAbs 20 (by omega) h20
    simp only [intDecimal, hneg, if_true, List.length_cons]
    omega
  · have htn : v.toNat = v.natAbs := by omega
    have := natDecimal_length_le v.toNat 20 (by omega) (by omega)
    simp only [intDecimal, hneg, if_false]
    omega

/-- Models `seri::meta::enum_case_descriptor`: a display name paired
with a discriminant value (the underlying integer of the enum
constant). -/
structure enum_case_descriptor where
  name : String
  value : Int
deriving DecidableEq, Repr

/-- Models `seri::meta::enum_descriptor`: the ordered tuple of case
descriptors. -/
structure enum_descriptor where
  cases : List enum_case_descriptor
deriving DecidableEq, Repr

/-- Models `enum_descriptor::name_of`: the fold over the cases
assigns the name of a case whose value matches only when no earlier
case already assigned a result (`if (!result && descriptor.value ==
value)`). -/
def enum_descriptor.name_of (d : enum_descriptor) (value : Int) :
    Option String :=
  d.cases.foldl
    (fun result descriptor =>
      if result.isNone ∧ descriptor.value = value then some descriptor.name
      else result)
    none

/-- Models `enum_descriptor::value_of`: same first-match fold, keyed
by the case name. -/
def enum_descriptor.value_of (d : enum_descriptor) (name : String) :
    Option Int :=
  d.cases.foldl
    (fun result descriptor =>
      if result.isNone ∧ descriptor.name = name then some descriptor.value
      else result)
    none

/-- Location of the `throw` in `detail::serialize_integral`
(seri.hpp line 408). -/
def integral_error_loc : source_location :=
  ⟨"include/seri/seri.hpp", 408⟩

/-- Location of the `throw` in `detail::serialize_floating`
(seri.hpp line 418). -/
def floating_error_loc : source_location :=
  ⟨"include/seri/seri.hpp", 418⟩

/-- Models `detail::serialize_integral`: `std::to_chars` into a
64-byte local buffer succeeds exactly when the minimal decimal form
fits, in which case the digits are appended to the writer; otherwise
a `serialization_error` is thrown and the writer is untouched (the
error value carries the writer state at the throw point). -/
def serialize_integral (out : json_writer) (value : Int) :
    Except (serialization_error × json_writer) json_writer :=
  if (intDecimal value).length ≤ 64 then
    .ok (out.write_view (intDecimal value))
  else
    .error (⟨"integral conversion failed", integral_error_loc⟩, out)

/-- Models `detail::serialize_floating`: the digit sequence that
`std::to_chars` would produce for the floating-point value is
abstracted as the parameter `float_chars`; the 128-byte buffer bound
and the throw-on-failure control flow mirror the source. -/
def serialize_floating {α : Type} (float_chars : α → List Char)
    (out : json_writer) (value : α) :
    Except (serialization_error × json_writer) json_writer :=
  if (float_chars value).length ≤ 128 then
    .ok (out.write_view (float_chars value))
  else
    .error (⟨"floating conversion failed", floating_error_loc⟩, out)

/-- Models `detail::serialize_enum`: look the value up in the enum's
descriptor; a found name is written escaped, otherwise the underlying
integer value of the discriminant is serialized. -/
def serialize_enum (out : json_writer) (d : enum_descriptor) (value : Int) :
    Except (serialization_error × json_writer) json_writer :=
  match d.name_of value with
  | some name => .ok (out.write_escaped name)
  | none => serialize_integral out value

/-- Models `detail::write_delimiter`: on the first member nothing is
written and the flag is cleared, afterwards a comma is written. -/
def write_delimiter (out : json_writer) (first : Bool) : json_writer × Bool :=
  if first then (out, false) else (out.write_char ',', false)

/-- Deep embedding of the shapes of values `seri::serialize` accepts:
booleans, non-bool integrals, string-like values, described enums,
map-like ranges with string keys, sequence-like ranges, optionals,
`std::expected` (`inl` = success payload, `inr` = error payload),
`std::variant` (active index plus active payload) and reflectable
records (base subobjects in declared order plus own named fields in
declared order). -/
inductive Value where
  | vBool (b : Bool)
  | vInt (n : Int)
  | vStr (s : String)
  | vEnum (d : enum_descriptor) (value : Int)
  | vMap (entries : List (String × Value))
  | vSeq (elems : List Value)
  | vOpt (o : Option Value)
  | vExp (e : Value ⊕ Value)
  | vVariant (index : Nat) (payload : Value)
  | vObj (bases : List Value) (fields : List (String × Value))

mutual

/-- Models `seri::serialize`: the `if constexpr` dispatch over the
category of the value, each branch transcribing the corresponding
emission rule of the header. A C++ `throw` propagating through the
recursion is an `.error` result carrying the writer at the throw
point. -/
def serialize (out : json_writer) : Value → Except (serialization_error × json_writer) json_writer
  | .vBool b => .ok (out.write_str (if b then ("true") else ("false")))
  | .vInt n => serialize_integral out n
  | .vStr s => .ok (out.write_escaped s)
  | .vEnum d v => serialize_enum out d v
  | .vMap entries =>
      match serialize_map_entries (out.write_char '\x7b') true entries with
      | .error err => .error err
      | .ok (w, _) => .ok (w.write_char '\x7d')
  | .vSeq elems =>
      match serialize_seq_elems (out.write_char '[') true elems with
      | .error err => .error err
      | .ok (w, _) => .ok (w.write_char ']')
  | .vOpt (some x) => serialize out x
  | .vOpt none => .ok (out.write_str ("null"))
  | .vExp (.inl x) =>
      let w1 := ((out.write_char '\x7b').write_escaped ("state")).write_char ':'
      let w2 := (w1.write_escaped ("value")).write_char ','
      let w3 := (w2.write_escaped ("value")).write_char ':'
      match serialize w3 x with
      | .error err => .error err
      | .ok w4 => .ok (w4.write_char '\x7d')
  | .vExp (.inr e) =>
      let w1 := ((out.write_char '\x7b').write_escaped ("state")).write_char ':'
      let w2 := (w1.write_escaped ("error")).write_char ','
      let w3 := (w2.write_escaped ("error")).write_char ':'
      match serialize w3 e with
      | .error err => .error err
      | .ok w4 => .ok (w4.write_char '\x7d')
  | .vVariant index payload =>
      let d1 := write_delimiter (out.write_char '\x7b') true
      let w1 := (d1.1.write_escaped ("index")).write_char ':'
      match serialize_integral w1 (Int.ofNat index) with
      | .error err => .error err
      | .ok w2 =>
          let d2 := write_delimiter w2 d1.2
          let w3 := (d2.1.write_escaped ("value")).write_char ':'
          match serialize w3 payload with
          | .error err => .error err
          | .ok w4 => .ok (w4.write_char '\x7d')
  | .vObj bases fields =>
      match serialize_bases (out.write_char '\x7b') true bases with
      | .error err => .error err
      | .ok (w, f) =>
          match serialize_own_fields w f fields with
          | .error err => .error err
          | .ok (w2, _) => .ok (w2.write_char '\x7d')

/-- Models the base-classes fold of `detail::for_each_field_impl`:
each base descriptor's fields are visited in declared base order,
threading the first-member flag. -/
def serialize_bases (out : json_writer) (first : Bool) :
    List Value → Except (serialization_error × json_writer) (json_writer × Bool)
  | [] => .ok (out, first)
  | b :: rest =>
      match serialize_base_fields out first b with
      | .error err => .error err
      | .ok (w, f) => serialize_bases w f rest

/-- Models the recursive `for_each_field` call on one base subobject:
its own bases are flattened first, then its own fields. -/
def serialize_base_fields (out : json_writer) (first : Bool) :
    Value → Except (serialization_error × json_writer) (json_writer × Bool)
  | .vObj bases fields =>
      match serialize_bases out first bases with
      | .error err => .error err
      | .ok (w, f) => serialize_own_fields w f fields
  | _ => .ok (out, first)

/-- Models the own-fields fold of `detail::for_each_field_impl`
combined with the per-field lambda of `detail::serialize_object`:
delimiter, escaped field name, colon, recursively serialized field
value. -/
def serialize_own_fields (out : json_writer) (first : Bool) :
    List (String × Value) → Except (serialization_error × json_writer) (json_writer × Bool)
  | [] => .ok (out, first)
  | (n, v) :: rest =>
      let d := write_delimiter out first
      let w := (d.1.write_escaped n).write_char ':'
      match serialize w v with
      | .error err => .error err
      | .ok w2 => serialize_own_fields w2 d.2 rest

/-- Models the element loop of `detail::serialize_sequence`. -/
def serialize_seq_elems (out : json_writer) (first : Bool) :
    List Value → Except (serialization_error × json_writer) (json_writer × Bool)
  | [] => .ok (out, first)
  | v :: rest =>
      let d := write_delimiter out first
      match serialize d.1 v with
      | .error err => .error err
      | .ok w2 => serialize_seq_elems w2 d.2 rest

/-- Models the entry loop of `detail::serialize_map`: each key is
written via `serialize_string` (escaped), then a colon, then the
recursively serialized mapped value. -/
def serialize_map_entries (out : json_writer) (first : Bool) :
    List (String × Value) → Except (serialization_error × json_writer) (json_writer × Bool)
  | [] => .ok (out, first)
  | (k, v) :: rest =>
      let d := write_delimiter out first
      let w := (d.1.write_escaped k).write_char ':'
      match serialize w v with
      | .error err => .error err
      | .ok w2 => serialize_map_entries w2 d.2 rest

end

/-- Models `seri::to_json`: serialize into a fresh writer. -/
def to_json (value : Value) : Except (serialization_error × json_writer) json_writer :=
  serialize ⟨[]⟩ value

/-- The text `to_json` produces on success. -/
def jsonText (value : Value) : Except (serialization_error × json_writer) (List Char) :=
  (to_json value).map json_writer.buffer

/-- Prepend a prefix to the buffer of a `serialize` outcome (success
writer or writer carried by an error). -/
def shiftE (p : List Char) :
    Except (serialization_error × json_writer) json_writer →
      Except (serialization_error × json_writer) json_writer
  | .ok r => .ok ⟨p ++ r.buffer⟩
  | .error (e, r) => .error (e, ⟨p ++ r.buffer⟩)

/-- Prepend a prefix to the buffer of a field/element-loop outcome. -/
def shiftP (p : List Char) :
    Except (serialization_error × json_writer) (json_writer × Bool) →
      Except (serialization_error × json_writer) (json_writer × Bool)
  | .ok (r, f) => .ok (⟨p ++ r.buffer⟩, f)
  | .error (e, r) => .error (e, ⟨p ++ r.buffer⟩)

mutual

/-- Frame property of `serialize`: running on any starting writer is
running on an empty writer with the starting buffer prepended — the
serializer only ever appends. -/
theorem serialize_shift : ∀ (v : Value) (w : json_writer),
    serialize w v = shiftE w.buffer (serialize ⟨[]⟩ v)
  | .vBool b, w => by
      simp [serialize, shiftE, json_writer.write_str]
  | .vInt n, w => by
      by_cases h : (intDecimal n).length ≤ 64 <;>
        simp [serialize, serialize_integral, h, shiftE, json_writer.write_view]
  | .vStr s, w => by
      simp [serialize, write_escaped_eq, shiftE]
  | .vEnum d v, w => by
      cases hn : d.name_of v with
      | some name => simp [serialize, serialize_enum, hn, write_escaped_eq, shiftE]
      | none =>
          by_cases h : (intDecimal v).length ≤ 64 <;>
            simp [serialize, serialize_enum, hn, serialize_integral, h, shiftE,
              json_writer.write_view]
  | .vMap entries, w => by
      have hm := serialize_map_entries_shift entries
      cases he : serialize_map_entries ⟨[]⟩ true entries with
      | ok p =>
          obtain ⟨r, f⟩ := p
          have hW : ∀ W : json_writer,
              serialize_map_entries W true entries = .ok (⟨W.buffer ++ r.buffer⟩, f) := by
            intro W; rw [hm W true, he]; rfl
          simp [serialize, hW, shiftE, json_writer.write_char, List.append_assoc]
      | error err =>
          obtain ⟨e, r⟩ := err
          have hW : ∀ W : json_writer,
              serialize_map_entries W true entries = .error (e, ⟨W.buffer ++ r.buffer⟩) := by
            intro W; rw [hm W true, he]; rfl
          simp [serialize, hW, shiftE, json_writer.write_char, List.append_assoc]
  | .vSeq elems, w => by
      have hm := serialize_seq_elems_shift elems
      cases he : serialize_seq_elems ⟨[]⟩ true elems with
      | ok p =>
          obtain ⟨r, f⟩ := p
          have hW : ∀ W : json_writer,
              serialize_seq_elems W true elems = .ok (⟨W.buffer ++ r.buffer⟩, f) := by
            intro W; rw [hm W true, he]; rfl
          simp [serialize, hW, shiftE, json_writer.write_char, List.append_assoc]
      | error err =>
          obtain ⟨e, r⟩ := err
          have hW : ∀ W : json_writer,
              serialize_seq_elems W true elems = .error (e, ⟨W.buffer ++ r.buffer⟩) := by
            intro W; rw [hm W true, he]; rfl
          simp [serialize, hW, shiftE, json_writer.write_char, List.append_assoc]
  | .vOpt none, w => by
      simp [serialize, shiftE, json_writer.write_str]
  | .vOpt (some x), w => by
      have hx := serialize_shift x w
      simpa [serialize] using hx
  | .vExp (.inl x), w => by
      have hs := serialize_shift x
      cases he : serialize ⟨[]⟩ x with
      | ok r =>
          have hW : ∀ W : json_writer, serialize W x = .ok ⟨W.buffer ++ r.buffer⟩ := by
            intro W; rw [hs W, he]; rfl
          simp [serialize, hW, shiftE, write_escaped_eq, json_writer.write_char,
            List.append_assoc]
      | error err =>
          obtain ⟨e, r⟩ := err
          have hW : ∀ W : json_writer,
              serialize W x = .error (e, ⟨W.buffer ++ r.buffer⟩) := by
            intro W; rw [hs W, he]; rfl
          simp [serialize, hW, shiftE, write_escaped_eq, json_writer.write_char,
            List.append_assoc]
  | .vExp (.inr x), w => by
      have hs := serialize_shift x
      cases he : serialize ⟨[]⟩ x with
      | ok r =>
          have hW : ∀ W : json_writer, serialize W x = .ok ⟨W.buffer ++ r.buffer⟩ := by
            intro W; rw [hs W, he]; rfl
          simp [serialize, hW, shiftE, write_escaped_eq, json_writer.write_char,
            List.append_assoc]
      | error err =>
          obtain ⟨e, r⟩ := err
          have hW : ∀ W : json_writer,
              serialize W x = .error (e, ⟨W.buffer ++ r.buffer⟩) := by
            intro W; rw [hs W, he]; rfl
          simp [serialize, hW, shiftE, write_escaped_eq, json_writer.write_char,
            List.append_assoc]
  | .vVariant index payload, w => by
      by_cases hle : (intDecimal ((index : Nat) : Int)).length ≤ 64
      · have hs := serialize_shift payload
        cases he : serialize ⟨[]⟩ payload with
        | ok r =>
            have hW : ∀ W : json_writer,
                serialize W payload = .ok ⟨W.buffer ++ r.buffer⟩ := by
              intro W; rw [hs W, he]; rfl
            simp [serialize, write_delimiter, serialize_integral, hle, hW, shiftE,
              write_escaped_eq, json_writer.write_char, json_writer.write_view,
              List.append_assoc]
        | error err =>
            obtain ⟨e, r⟩ := err
            have hW : ∀ W : json_writer,
                serialize W payload = .error (e, ⟨W.buffer ++ r.buffer⟩) := by
              intro W; rw [hs W, he]; rfl
            simp [serialize, write_delimiter, serialize_integral, hle, hW, shiftE,
              write_escaped_eq, json_writer.write_char, json_writer.write_view,
              List.append_assoc]
      · simp [serialize, write_delimiter, serialize_integral, hle, shiftE,
          write_escaped_eq, json_writer.write_char, List.append_assoc]
  | .vObj bases fields, w => by
      have hb := serialize_bases_shift bases
      cases hB : serialize_bases ⟨[]⟩ true bases with
      | ok p =>
          obtain ⟨r, f⟩ := p
          have hWb : ∀ W : json_writer,
              serialize_bases W true bases = .ok (⟨W.buffer ++ r.buffer⟩, f) := by
            intro W; rw [hb W true, hB]; rfl
          have hf := serialize_own_fields_shift fields
          cases hF : serialize_own_fields ⟨[]⟩ f fields with
          | ok q =>
              obtain ⟨r2, f2⟩ := q
              have hWf : ∀ W : json_writer,
                  serialize_own_fields W f fields = .ok (⟨W.buffer ++ r2.buffer⟩, f2) := by
                intro W; rw [hf W f, hF]; rfl
              simp [serialize, hWb, hWf, shiftE, json_writer.write_char, List.append_assoc]
          | error err =>
              obtain ⟨e, r2⟩ := err
              have hWf : ∀ W : json_writer,
                  serialize_own_fields W f fields = .error (e, ⟨W.buffer ++ r2.buffer⟩) := by
                intro W; rw [hf W f, hF]; rfl
              simp [serialize, hWb, hWf, shiftE, json_writer.write_char, List.append_assoc]
      | error err =>
          obtain ⟨e, r⟩ := err
          have hWb : ∀ W : json_writer,
              serialize_bases W true bases = .error (e, ⟨W.buffer ++ r.buffer⟩) := by
            intro W; rw [hb W true, hB]; rfl
          simp [serialize, hWb, shiftE, json_writer.write_char, List.append_assoc]

/-- Frame property of the base-descriptor loop. -/
theorem serialize_bases_shift : ∀ (l : List Value) (w : json_writer) (first : Bool),
    serialize_bases w first l = shiftP w.buffer (serialize_bases ⟨[]⟩ first l)
  | [], w, first => by
      simp [serialize_bases, shiftP]
  | b :: rest, w, first => by
      have hbf := serialize_base_fields_shift b
      cases he : serialize_base_fields ⟨[]⟩ first b with
      | ok p =>
          obtain ⟨r, f⟩ := p
          have hW : ∀ W : json_writer,
              serialize_base_fields W first b = .ok (⟨W.buffer ++ r.buffer⟩, f) := by
            intro W; rw [hbf W first, he]; rfl
          have hr := serialize_bases_shift rest
          cases hrr : serialize_bases ⟨[]⟩ f rest with
          | ok q =>
              obtain ⟨r2, f2⟩ := q
              have hWr : ∀ W : json_writer,
                  serialize_bases W f rest = .ok (⟨W.buffer ++ r2.buffer⟩, f2) := by
                intro W; rw [hr W f, hrr]; rfl
              simp [serialize_bases, hW, hWr, shiftP, List.append_assoc]
          | error err =>
              obtain ⟨e, r2⟩ := err
              have hWr : ∀ W : json_writer,
                  serialize_bases W f rest = .error (e, ⟨W.buffer ++ r2.buffer⟩) := by
                intro W; rw [hr W f, hrr]; rfl
              simp [serialize_bases, hW, hWr, shiftP, List.append_assoc]
      | error err =>
          obtain ⟨e, r⟩ := err
          have hW : ∀ W : json_writer,
              serialize_base_fields W first b = .error (e, ⟨W.buffer ++ r.buffer⟩) := by
            intro W; rw [hbf W first, he]; rfl
          simp [serialize_bases, hW, shiftP, List.append_assoc]

/-- Frame property of `for_each_field` on one base subobject. -/
theorem serialize_base_fields_shift : ∀ (v : Value) (w : json_writer) (first : Bool),
    serialize_base_fields w first v = shiftP w.buffer (serialize_base_fields ⟨[]⟩ first v)
  | .vObj bases fields, w, first => by
      have hb := serialize_bases_shift bases
      cases hB : serialize_bases ⟨[]⟩ first bases with
      | ok p =>
          obtain ⟨r, f⟩ := p
          have hWb : ∀ W : json_writer,
              serialize_bases W first bases = .ok (⟨W.buffer ++ r.buffer⟩, f) := by
            intro W; rw [hb W first, hB]; rfl
          have hf := serialize_own_fields_shift fields
          cases hF : serialize_own_fields ⟨[]⟩ f fields with
          | ok q =>
              obtain ⟨r2, f2⟩ := q
              have hWf : ∀ W : json_writer,
                  serialize_own_fields W f fields = .ok (⟨W.buffer ++ r2.buffer⟩, f2) := by
                intro W; rw [hf W f, hF]; rfl
              simp [serialize_base_fields, hWb, hWf, shiftP, List.append_assoc]
          | error err =>
              obtain ⟨e, r2⟩ := err
              have hWf : ∀ W : json_writer,
                  serialize_own_fields W f fields = .error (e, ⟨W.buffer ++ r2.buffer⟩) := by
                intro W; rw [hf W f, hF]; rfl
              simp [serialize_base_fields, hWb, hWf, shiftP, List.append_assoc]
      | error err =>
          obtain ⟨e, r⟩ := err
          have hWb : ∀ W : json_writer,
              serialize_bases W first bases = .error (e, ⟨W.buffer ++ r.buffer⟩) := by
            intro W; rw [hb W first, hB]; rfl
          simp [serialize_base_fields, hWb, shiftP, List.append_assoc]
  | .vBool b, w, first => by simp [serialize_base_fields, shiftP]
  | .vInt n, w, first => by simp [serialize_base_fields, shiftP]
  | .vStr s, w, first => by simp [serialize_base_fields, shiftP]
  | .vEnum d v, w, first => by simp [serialize_base_fields, shiftP]
  | .vMap entries, w, first => by simp [serialize_base_fields, shiftP]
  | .vSeq elems, w, first => by simp [serialize_base_fields, shiftP]
  | .vOpt o, w, first => by simp [serialize_base_fields, shiftP]
  | .vExp e, w, first => by simp [serialize_base_fields, shiftP]
  | .vVariant i p, w, first => by simp [serialize_base_fields, shiftP]

/-- Frame property of the own-fields loop. -/
theorem serialize_own_fields_shift :
    ∀ (l : List (String × Value)) (w : json_writer) (first : Bool),
      serialize_own_fields w first l = shiftP w.buffer (serialize_own_fields ⟨[]⟩ first l)
  | [], w, first => by
      simp [serialize_own_fields, shiftP]
  | (n, v) :: rest, w, first => by
      have hs := serialize_shift v
      cases he : serialize ⟨[]⟩ v with
      | ok r =>
          have hW : ∀ W : json_writer, serialize W v = .ok ⟨W.buffer ++ r.buffer⟩ := by
            intro W; rw [hs W, he]; rfl
          have hr := serialize_own_fields_shift rest
          cases hrr : serialize_own_fields ⟨[]⟩ false rest with
          | ok q =>
              obtain ⟨r2, f2⟩ := q
              have hWr : ∀ W : json_writer,
                  serialize_own_fields W false rest = .ok (⟨W.buffer ++ r2.buffer⟩, f2) := by
                intro W; rw [hr W false, hrr]; rfl
              cases first <;>
                simp [serialize_own_fields, write_delimiter, hW, hWr, shiftP,
                  write_escaped_eq, json_writer.write_char, List.append_assoc]
          | error err =>
              obtain ⟨e, r2⟩ := err
              have hWr : ∀ W : json_writer,
                  serialize_own_fields W false rest = .error (e, ⟨W.buffer ++ r2.buffer⟩) := by
                intro W; rw [hr W false, hrr]; rfl
              cases first <;>
                simp [serialize_own_fields, write_delimiter, hW, hWr, shiftP,
                  write_escaped_eq, json_writer.write_char, List.append_assoc]
      | error err =>
          obtain ⟨e, r⟩ := err
          have hW : ∀ W : json_writer,
              serialize W v = .error (e, ⟨W.buffer ++ r.buffer⟩) := by
            intro W; rw [hs W, he]; rfl
          cases first <;>
            simp [serialize_own_fields, write_delimiter, hW, shiftP,
              write_escaped_eq, json_writer.write_char, List.append_assoc]

/-- Frame property of the sequence-element loop. -/
theorem serialize_seq_elems_shift : ∀ (l : List Value) (w : json_writer) (first : Bool),
    serialize_seq_elems w first l = shiftP w.buffer (serialize_seq_elems ⟨[]⟩ first l)
  | [], w, first => by
      simp [serialize_seq_elems, shiftP]
  | v :: rest, w, first => by
      have hs := serialize_shift v
      cases he : serialize ⟨[]⟩ v with
      | ok r =>
          have hW : ∀ W : json_writer, serialize W v = .ok ⟨W.buffer ++ r.buffer⟩ := by
            intro W; rw [hs W, he]; rfl
          have hr := serialize_seq_elems_shift rest
          cases hrr : serialize_seq_elems ⟨[]⟩ false rest with
          | ok q =>
              obtain ⟨r2, f2⟩ := q
              have hWr : ∀ W : json_writer,
                  serialize_seq_elems W false rest = .ok (⟨W.buffer ++ r2.buffer⟩, f2) := by
                intro W; rw [hr W false, hrr]; rfl
              cases first <;>
                simp [serialize_seq_elems, write_delimiter, hW, hWr, shiftP,
                  json_writer.write_char, List.append_assoc]
          | error err =>
              obtain ⟨e, r2⟩ := err
              have hWr : ∀ W : json_writer,
                  serialize_seq_elems W false rest = .error (e, ⟨W.buffer ++ r2.buffer⟩) := by
                intro W; rw [hr W false, hrr]; rfl
              cases first <;>
                simp [serialize_seq_elems, write_delimiter, hW, hWr, shiftP,
                  json_writer.write_char, List.append_assoc]
      | error err =>
          obtain ⟨e, r⟩ := err
          have hW : ∀ W : json_writer,
              serialize W v = .error (e, ⟨W.buffer ++ r.buffer⟩) := by
            intro W; rw [hs W, he]; rfl
          cases first <;>
            simp [serialize_seq_elems, write_delimiter, hW, shiftP,
              json_writer.write_char, List.append_assoc]

/-- Frame property of the map-entry loop. -/
theorem serialize_map_entries_shift :
    ∀ (l : List (String × Value)) (w : json_writer) (first : Bool),
      serialize_map_entries w first l = shiftP w.buffer (serialize_map_entries ⟨[]⟩ first l)
  | [], w, first => by
      simp [serialize_map_entries, shiftP]
  | (k, v) :: rest, w, first => by
      have hs := serialize_shift v
      cases he : serialize ⟨[]⟩ v with
      | ok r =>
          have hW : ∀ W : json_writer, serialize W v = .ok ⟨W.buffer ++ r.buffer⟩ := by
            intro W; rw [hs W, he]; rfl
          have hr := serialize_map_entries_shift rest
          cases hrr : serialize_map_entries ⟨[]⟩ false rest with
          | ok q =>
              obtain ⟨r2, f2⟩ := q
              have hWr : ∀ W : json_writer,
                  serialize_map_entries W false rest = .ok (⟨W.buffer ++ r2.buffer⟩, f2) := by
                intro W; rw [hr W false, hrr]; rfl
              cases first <;>
                simp [serialize_map_entries, write_delimiter, hW, hWr, shiftP,
                  write_escaped_eq, json_writer.write_char, List.append_assoc]
          | error err =>
              obtain ⟨e, r2⟩ := err
              have hWr : ∀ W : json_writer,
                  serialize_map_entries W false rest = .error (e, ⟨W.buffer ++ r2.buffer⟩) := by
                intro W; rw [hr W false, hrr]; rfl
              cases first <;>
                simp [serialize_map_entries, write_delimiter, hW, hWr, shiftP,
                  write_escaped_eq, json_writer.write_char, List.append_assoc]
      | error err =>
          obtain ⟨e, r⟩ := err
          have hW : ∀ W : json_writer,
              serialize W v = .error (e, ⟨W.buffer ++ r.buffer⟩) := by
            intro W; rw [hs W, he]; rfl
          cases first <;>
            simp [serialize_map_entries, write_delimiter, hW, shiftP,
              write_escaped_eq, json_writer.write_char, List.append_assoc]

end

mutual

/-- The flattened field list of a record value, in the order
`for_each_field_impl` visits fields: all base descriptors' fields
first (each base fully flattened recursively, in declared base
order), then the type's own fields in declared order. -/
def fieldPairs : Value → List (String × Value)
  | .vObj bases fields => fieldPairsList bases ++ fields
  | _ => []

/-- The concatenated flattened field lists of a list of bases. -/
def fieldPairsList : List Value → List (String × Value)
  | [] => []
  | b :: rest => fieldPairs b ++ fieldPairsList rest

end

theorem fieldPairsList_eq (l : List Value) :
    fieldPairsList l = l.flatMap fieldPairs := by
  induction l with
  | nil => simp [fieldPairsList]
  | cons b rest ih => simp [fieldPairsList, ih]

theorem fieldPairs_obj (bases : List Value) (fields : List (String × Value)) :
    fieldPairs (.vObj bases fields) = bases.flatMap fieldPairs ++ fields := by
  simp [fieldPairs, fieldPairsList_eq]

/-- The own-fields loop over a concatenation runs the two halves in
sequence, threading writer and first-member flag. -/
theorem serialize_own_fields_append (l1 l2 : List (String × Value)) :
    ∀ (w : json_writer) (first : Bool),
      serialize_own_fields w first (l1 ++ l2) =
        match serialize_own_fields w first l1 with
        | .error err => .error err
        | .ok (w2, f2) => serialize_own_fields w2 f2 l2 := by
  induction l1 with
  | nil => intro w first; simp [serialize_own_fields]
  | cons hd tl ih =>
      intro w first
      obtain ⟨n, v⟩ := hd
      simp only [List.cons_append, serialize_own_fields]
      cases serialize ((write_delimiter w first).1.write_escaped n |>.write_char ':') v with
      | error err => rfl
      | ok w2 => exact ih w2 (write_delimiter w first).2

mutual

/-- Flattening: `for_each_field` on one subobject is the plain field loop over
its flattened field list. -/
theorem serialize_base_fields_flatten : ∀ (v : Value) (w : json_writer) (first : Bool),
    serialize_base_fields w first v = serialize_own_fields w first (fieldPairs v)
  | .vObj bases fields, w, first => by
      rw [fieldPairs_obj, serialize_own_fields_append]
      have hb := serialize_bases_flatten bases w first
      simp only [serialize_base_fields, hb]
  | .vBool b, w, first => by simp [serialize_base_fields, fieldPairs, serialize_own_fields]
  | .vInt n, w, first => by simp [serialize_base_fields, fieldPairs, serialize_own_fields]
  | .vStr s, w, first => by simp [serialize_base_fields, fieldPairs, serialize_own_fields]
  | .vEnum d v, w, first => by simp [serialize_base_fields, fieldPairs, serialize_own_fields]
  | .vMap entries, w, first => by simp [serialize_base_fields, fieldPairs, serialize_own_fields]
  | .vSeq elems, w, first => by simp [serialize_base_fields, fieldPairs, serialize_own_fields]
  | .vOpt o, w, first => by simp [serialize_base_fields, fieldPairs, serialize_own_fields]
  | .vExp e, w, first => by simp [serialize_base_fields, fieldPairs, serialize_own_fields]
  | .vVariant i p, w, first => by simp [serialize_base_fields, fieldPairs, serialize_own_fields]

/-- The bases loop is the plain field loop over the concatenation of
the bases' flattened field lists. -/
theorem serialize_bases_flatten : ∀ (l : List Value) (w : json_writer) (first : Bool),
    serialize_bases w first l = serialize_own_fields w first (l.flatMap fieldPairs)
  | [], w, first => by simp [serialize_bases, serialize_own_fields]
  | b :: rest, w, first => by
      rw [List.flatMap_cons, serialize_own_fields_append]
      have hb := serialize_base_fields_flatten b w first
      simp only [serialize_bases, hb]
      cases serialize_own_fields w first (fieldPairs b) with
      | error err => rfl
      | ok p => exact serialize_bases_flatten rest p.1 p.2

end

/-- Record encoding: `serialize` on a record value produces an object literal whose members
are exactly the flattened field list, in order. -/
theorem serialize_obj_flatten (bases : List Value) (fields : List (String × Value))
    (w : json_writer) :
    serialize w (.vObj bases fields) =
      match serialize_own_fields (w.write_char '\x7b') true
          (fieldPairs (.vObj bases fields)) with
      | .error err => .error err
      | .ok (w2, _) => .ok (w2.write_char '\x7d') := by
  rw [fieldPairs_obj, serialize_own_fields_append]
  have hb := serialize_bases_flatten bases (w.write_char '\x7b') true
  simp only [serialize, hb]
  cases serialize_own_fields (w.write_char '\x7b') true (bases.flatMap fieldPairs) with
  | error err => rfl
  | ok p =>
      cases serialize_own_fields p.1 p.2 fields with
      | error err => rfl
      | ok q => rfl

/-- Skeletons of the C++ types `serialize` can be instantiated at:
`bool`, `char`, the other integral types, floating-point types,
`std::string`, `std::string_view`, `const char *`, `std::pair`,
enums, `std::map`, `std::vector` (standing for an arbitrary
non-string range), `std::optional`, `std::expected`, `std::variant`
and record types (reflectable when metadata is available). -/
inductive Ty where
  | tBool
  | tChar
  | tInt
  | tFloat
  | tString
  | tStringView
  | tCString
  | tPair (a b : Ty)
  | tEnum
  | tMap (k v : Ty)
  | tVector (e : Ty)
  | tOptional (t : Ty)
  | tExpected (v e : Ty)
  | tVariant (alts : List Ty)
  | tRecord (described : Bool)
deriving Repr

/-- The check `std::same_as<U, bool>` of the first dispatch branch. -/
def is_bool : Ty → Bool
  | .tBool => true
  | _ => false

/-- Models `std::is_integral_v`: `bool`, `char` and the other whole-number
types. -/
def is_integral : Ty → Bool
  | .tBool => true
  | .tChar => true
  | .tInt => true
  | _ => false

/-- Models `std::is_floating_point_v`. -/
def is_floating : Ty → Bool
  | .tFloat => true
  | _ => false

/-- The concept `detail::string_like`: convertible to
`std::string_view`, and not `char` itself. -/
def string_like : Ty → Bool
  | .tString => true
  | .tStringView => true
  | .tCString => true
  | _ => false

/-- Whether the type satisfies `std::ranges::range`: strings and
string views are ranges of characters, maps and vectors are ranges
of their element type. -/
def is_range : Ty → Bool
  | .tString => true
  | .tStringView => true
  | .tMap _ _ => true
  | .tVector _ => true
  | _ => false

/-- Models `std::ranges::range_value_t`, where defined. -/
def elem_ty : Ty → Option Ty
  | .tString => some .tChar
  | .tStringView => some .tChar
  | .tMap k v => some (.tPair k v)
  | .tVector e => some e
  | _ => none

/-- The concept `detail::map_like`: a range whose value type has
`first_type` and `second_type` (i.e. is a pair). -/
def map_like (t : Ty) : Bool :=
  is_range t &&
    match elem_ty t with
    | some (.tPair _ _) => true
    | _ => false

/-- The concept `detail::range_like`: a range that is not
string-like. -/
def range_like (t : Ty) : Bool :=
  is_range t && !string_like t

/-- The concept `detail::optional_like` (via `optional_traits`). -/
def optional_like : Ty → Bool
  | .tOptional _ => true
  | _ => false

/-- The concept `detail::expected_like` (via `expected_traits`). -/
def expected_like : Ty → Bool
  | .tExpected _ _ => true
  | _ => false

/-- The concept `detail::variant_like` (via `variant_traits`). -/
def variant_like : Ty → Bool
  | .tVariant _ => true
  | _ => false

/-- Models `std::is_enum_v`. -/
def is_enum : Ty → Bool
  | .tEnum => true
  | _ => false

/-- The concept `detail::reflectable`
(`meta::has_type_description_v`). -/
def reflectable : Ty → Bool
  | .tRecord described => described
  | _ => false

/-- The encoding categories of the specification. -/
inductive Category where
  | boolean
  | integer
  | floatingPoint
  | stringLike
  | enumeration
  | mapLike
  | sequenceLike
  | optionalCat
  | resultCat
  | variantCat
  | reflectableObject
deriving DecidableEq, Repr

/-- The `if constexpr` dispatch chain of `seri::serialize`, branch by
branch in source order; `none` is the `static_assert`
("Type is not serializable") fall-through. -/
def classify (t : Ty) : Option Category :=
  if is_bool t then some .boolean
  else if is_integral t && !is_bool t then some .integer
  else if is_floating t then some .floatingPoint
  else if string_like t then some .stringLike
  else if is_enum t then some .enumeration
  else if map_like t then some .mapLike
  else if range_like t then some .sequenceLike
  else if optional_like t then some .optionalCat
  else if expected_like t then some .resultCat
  else if variant_like t then some .variantCat
  else if reflectable t then some .reflectableObject
  else none

/-- The fixed priority order of the specification (section 4.2), each
category paired with its qualifying condition. -/
def spec_priority : List (Category × (Ty → Bool)) :=
  [(.boolean, is_bool),
   (.integer, fun t => is_integral t && !is_bool t),
   (.floatingPoint, is_floating),
   (.stringLike, string_like),
   (.enumeration, is_enum),
   (.mapLike, map_like),
   (.sequenceLike, range_like),
   (.optionalCat, optional_like),
   (.resultCat, expected_like),
   (.variantCat, variant_like),
   (.reflectableObject, reflectable)]

/-- First-match classification over the priority list: the rule the
specification prescribes. -/
def spec_classify (t : Ty) : Option Category :=
  (spec_priority.find? (fun p => p.2 t)).map (fun p => p.1)

theorem classify_eq_spec_classify (t : Ty) :
    classify t = spec_classify t := by
  cases t with
  | tVector e => cases e <;> rfl
  | tRecord described => cases described <;> rfl
  | _ => rfl

theorem foldl_keeps_some {α β : Type} (p : β → Prop) [DecidablePred p]
    (f : β → α) (l : List β) (x : α) :
    l.foldl (fun r c => if r.isNone ∧ p c then some (f c) else r) (some x)
      = some x := by
  induction l with
  | nil => rfl
  | cons c rest ih => simpa using ih

theorem foldl_first_match {α β : Type} (p : β → Prop) [DecidablePred p]
    (f : β → α) (l : List β) :
    l.foldl (fun r c => if r.isNone ∧ p c then some (f c) else r) none
      = (l.find? (fun c => decide (p c))).map f := by
  induction l with
  | nil => rfl
  | cons c rest ih =>
      by_cases h : p c
      · simp [List.foldl_cons, h, List.find?_cons, foldl_keeps_some]
      · simp [List.foldl_cons, h, List.find?_cons, ih]

/-- Lookup shape: `name_of` is first-match lookup by discriminant over the cases in
declaration order. -/
theorem name_of_eq_find? (d : enum_descriptor) (v : Int) :
    d.name_of v
      = (d.cases.find? (fun c => decide (c.value = v))).map (fun c => c.name) := by
  simpa [enum_descriptor.name_of] using
    foldl_first_match (fun c : enum_case_descriptor => c.value = v)
      (fun c => c.name) d.cases

/-- Lookup shape: `value_of` is first-match lookup by name over the cases in
declaration order. -/
theorem value_of_eq_find? (d : enum_descriptor) (n : String) :
    d.value_of n
      = (d.cases.find? (fun c => decide (c.name = n))).map (fun c => c.value) := by
  simpa [enum_descriptor.value_of] using
    foldl_first_match (fun c : enum_case_descriptor => c.name = n)
      (fun c => c.value) d.cases

/-- On a descriptor with pairwise-distinct names, a successful
`name_of` lookup is inverted by `value_of`. -/
theorem value_of_name_of (d : enum_descriptor)
    (hnames : (d.cases.map (fun c => c.name)).Nodup) (v : Int) (n : String)
    (h : d.name_of v = some n) : d.value_of n = some v := by
  rw [name_of_eq_find?] at h
  rw [value_of_eq_find?]
  obtain ⟨c, hfind, hname⟩ := Option.map_eq_some'.mp h
  have hmem : c ∈ d.cases := List.mem_of_find?_eq_some hfind
  have hval : c.value = v := by
    have := List.find?_some hfind
    simpa using this
  have hsome : (d.cases.find? (fun c => decide (c.name = n))).isSome := by
    rw [List.find?_isSome]
    exact ⟨c, hmem, by simpa using hname⟩
  obtain ⟨c2, hfind2⟩ := Option.isSome_iff_exists.mp hsome
  have hmem2 : c2 ∈ d.cases := List.mem_of_find?_eq_some hfind2
  have hname2 : c2.name = n := by
    have := List.find?_some hfind2
    simpa using this
  have hceq : c2 = c :=
    List.inj_on_of_nodup_map hnames hmem2 hmem (by rw [hname2, hname])
  rw [hfind2]
  simp [hceq, hval]

/-- On a descriptor with pairwise-distinct discriminants, a
successful `value_of` lookup is inverted by `name_of`. -/
theorem name_of_value_of (d : enum_descriptor)
    (hvalues : (d.cases.map (fun c => c.value)).Nodup) (n : String) (v : Int)
    (h : d.value_of n = some v) : d.name_of v = some n := by
  rw [value_of_eq_find?] at h
  rw [name_of_eq_find?]
  obtain ⟨c, hfind, hval⟩ := Option.map_eq_some'.mp h
  have hmem : c ∈ d.cases := List.mem_of_find?_eq_some hfind
  have hname : c.name = n := by
    have := List.find?_some hfind
    simpa using this
  have hsome : (d.cases.find? (fun c => decide (c.value = v))).isSome := by
    rw [List.find?_isSome]
    exact ⟨c, hmem, by simpa using hval⟩
  obtain ⟨c2, hfind2⟩ := Option.isSome_iff_exists.mp hsome
  have hmem2 : c2 ∈ d.cases := List.mem_of_find?_eq_some hfind2
  have hval2 : c2.value = v := by
    have := List.find?_some hfind2
    simpa using this
  have hceq : c2 = c :=
    List.inj_on_of_nodup_map hvalues hmem2 hmem (by rw [hval2, hval])
  rw [hfind2]
  simp [hceq, hname]

theorem intDecimal_ofNat (n : Nat) : intDecimal (n : Int) = natDecimal n := by
  simp [intDecimal]

/-- The `Tone` enum descriptor of the test suite: cases `warm`,
`cool`, `neutral` with discriminants 0, 1, 2. -/
def tone : enum_descriptor :=
  ⟨[⟨"warm", 0⟩, ⟨"cool", 1⟩, ⟨"neutral", 2⟩]⟩

/-- A record value with one base contributing field `f1` and own
fields `f2`, `f3` (spec section 8's inheritance scenario). -/
def derived_example : Value :=
  .vObj [.vObj [] [("f1", .vInt 1)]] [("f2", .vInt 2), ("f3", .vInt 3)]

/-- C1: the encoder applies exactly the rule of the first category in
the fixed priority order (boolean, integer, floating-point,
string-like, enumeration, map-like, sequence-like, optional, result,
variant, reflectable-object) for which the type qualifies: the
`if constexpr` chain of `serialize` equals first-match search over
the spec's priority list; a type that is both string-like and a range
of characters classifies string-like, never sequence-like; and a
string-like value is emitted in the quoted-escaped string form. -/
theorem C1_dispatch_first_match :
    (∀ t : Ty, classify t = spec_classify t) ∧
    (∀ t : Ty, string_like t = true → is_range t = true →
      classify t = some Category.stringLike) ∧
    (∀ (w : json_writer) (s : String),
      serialize w (.vStr s) = .ok (w.write_escaped s)) := by
  refine ⟨classify_eq_spec_classify, ?_, ?_⟩
  · intro t h1 h2
    cases t <;> first
      | rfl
      | simp_all [string_like, is_range]
  · intro w s
    simp [serialize]

/-- Witness for C1's string conjunct: `std::string` is both
string-like and a range of characters, and classifies string-like. -/
theorem C1_dispatch_first_match_witness :
    string_like Ty.tString = true ∧ is_range Ty.tString = true ∧
      classify Ty.tString = some Category.stringLike :=
  ⟨by decide, by decide,
    C1_dispatch_first_match.2.1 Ty.tString (by decide) (by decide)⟩

/-- C2: a reflectable record encodes its fields in the flattened
order: all base descriptors' fields first (each base fully flattened
recursively, in declared base order), then the type's own fields in
declared order; a record with one base field `f1` and own fields
`f2`, `f3` encodes with `f1` strictly first. -/
theorem C2_record_field_order :
    (∀ (bases : List Value) (fields : List (String × Value)) (w : json_writer),
      serialize w (.vObj bases fields) =
        match serialize_own_fields (w.write_char '\x7b') true
            (fieldPairs (.vObj bases fields)) with
        | .error err => .error err
        | .ok (w2, _) => .ok (w2.write_char '\x7d')) ∧
    (∀ (bases : List Value) (fields : List (String × Value)),
      fieldPairs (.vObj bases fields) = bases.flatMap fieldPairs ++ fields) ∧
    jsonText derived_example = .ok ("\x7b\"f1\":1,\"f2\":2,\"f3\":3\x7d".data) := by
  refine ⟨serialize_obj_flatten, fieldPairs_obj, ?_⟩
  simp [derived_example, jsonText, to_json, serialize, serialize_bases,
    serialize_base_fields, serialize_own_fields, serialize_integral,
    write_delimiter, intDecimal, natDecimal, natDecimalAux, digitChar,
    write_escaped_eq, escapeList, escapeChars, json_writer.write_char,
    json_writer.write_str, json_writer.write_view, Except.map]

/-- C3: a string-like value encodes as the value wrapped in double
quotes with exactly the five per-character escapes of
`write_escaped`, and decoding those escape sequences recovers the
value exactly. -/
theorem C3_string_escaping_roundtrip :
    (∀ s : String,
      jsonText (.vStr s) = .ok ('"' :: escapeList s.data ++ ['"'])) ∧
    (∀ c : Char, escapeChars c =
      if c = '\\' then ['\\', '\\']
      else if c = '"' then ['\\', '"']
      else if c = '\n' then ['\\', 'n']
      else if c = '\r' then ['\\', 'r']
      else if c = '\t' then ['\\', 't']
      else [c]) ∧
    (∀ s : List Char, unescape (escapeList s) = some s) := by
  refine ⟨?_, fun c => rfl, unescape_escapeList⟩
  intro s
  simp [jsonText, to_json, serialize, write_escaped_eq, Except.map]

/-- C4: an absent optional encodes as exactly the text `null`; a
present optional encodes exactly as its held value, with no added
wrapper. -/
theorem C4_optional_transparent :
    jsonText (.vOpt none) = .ok ("null".data) ∧
    (∀ (x : Value) (w : json_writer),
      serialize w (.vOpt (some x)) = serialize w x) ∧
    (∀ x : Value, to_json (.vOpt (some x)) = to_json x) := by
  refine ⟨?_, ?_, ?_⟩
  · simp [jsonText, to_json, serialize, json_writer.write_str, Except.map]
  · intro x w; simp [serialize]
  · intro x; simp [to_json, serialize]

/-- C5: a result holding a success payload encodes as exactly the
object with `state` set to `"value"` and field `value` holding the
recursively encoded payload; an error payload gives `state` set to
`"error"` and field `error`; exactly one payload field is present. -/
theorem C5_result_encoding :
    (∀ (x : Value) (t : List Char), jsonText x = .ok t →
      jsonText (.vExp (.inl x)) =
        .ok ("\x7b\"state\":\"value\",\"value\":".data ++ t ++ ['\x7d'])) ∧
    (∀ (x : Value) (t : List Char), jsonText x = .ok t →
      jsonText (.vExp (.inr x)) =
        .ok ("\x7b\"state\":\"error\",\"error\":".data ++ t ++ ['\x7d'])) := by
  constructor <;>
  · intro x t h
    have hr : ∃ r : json_writer, serialize ⟨[]⟩ x = .ok r ∧ r.buffer = t := by
      cases hx : serialize ⟨[]⟩ x with
      | ok r =>
          refine ⟨r, rfl, ?_⟩
          simpa [jsonText, to_json, hx, Except.map] using h
      | error err => simp [jsonText, to_json, hx, Except.map] at h
    obtain ⟨r, he, hbuf⟩ := hr
    have hW : ∀ W : json_writer, serialize W x = .ok ⟨W.buffer ++ t⟩ := by
      intro W
      rw [serialize_shift x W, he]
      simp [shiftE, hbuf]
    simp [jsonText, to_json, serialize, hW, write_escaped_eq, escapeList,
      escapeChars, json_writer.write_char, List.append_assoc, Except.map]

/-- Witness for C5: the spec's concrete scenarios
`result-ok(12)` and `result-err("boom")`. -/
theorem C5_result_encoding_witness :
    jsonText (.vInt 12) = .ok ("12".data) ∧
    jsonText (.vExp (.inl (.vInt 12))) =
      .ok ("\x7b\"state\":\"value\",\"value\":12\x7d".data) ∧
    jsonText (.vStr ("boom")) = .ok ("\"boom\"".data) ∧
    jsonText (.vExp (.inr (.vStr ("boom")))) =
      .ok ("\x7b\"state\":\"error\",\"error\":\"boom\"\x7d".data) := by
  have h12 : jsonText (.vInt 12) = .ok ("12".data) := by
    simp [jsonText, to_json, serialize, serialize_integral, intDecimal,
      natDecimal, natDecimalAux, digitChar, json_writer.write_view, Except.map]
  have hboom : jsonText (.vStr ("boom")) = .ok ("\"boom\"".data) := by
    simp [jsonText, to_json, serialize, write_escaped_eq, escapeList,
      escapeChars, Except.map]
  refine ⟨h12, ?_, hboom, ?_⟩
  · have := C5_result_encoding.1 (.vInt 12) ("12".data) h12
    simpa using this
  · have := C5_result_encoding.2 (.vStr ("boom")) ("\"boom\"".data) hboom
    simpa using this

/-- C6: a variant holding alternative `i` with payload `p` encodes as
exactly an object with the two fields `index` (the zero-based
discriminant as an integer) then `value` (the recursively encoded
payload), in that order. -/
theorem C6_variant_encoding (i : Nat) (p : Value) (t : List Char)
    (hi : i < 2 ^ 64) (h : jsonText p = .ok t) :
    jsonText (.vVariant i p) =
      .ok ("\x7b\"index\":".data ++ natDecimal i ++
        (",\"value\":".data ++ t ++ ['\x7d'])) := by
  have habs : ((i : Int)).natAbs < 2 ^ 64 := by simpa using hi
  have hlen : (natDecimal i).length ≤ 64 := by
    have := intDecimal_length_le (i : Int) habs
    rw [intDecimal_ofNat] at this
    omega
  have hr : ∃ r : json_writer, serialize ⟨[]⟩ p = .ok r ∧ r.buffer = t := by
    cases hx : serialize ⟨[]⟩ p with
    | ok r =>
        refine ⟨r, rfl, ?_⟩
        simpa [jsonText, to_json, hx, Except.map] using h
    | error err => simp [jsonText, to_json, hx, Except.map] at h
  obtain ⟨r, he, hbuf⟩ := hr
  have hW : ∀ W : json_writer, serialize W p = .ok ⟨W.buffer ++ t⟩ := by
    intro W
    rw [serialize_shift p W, he]
    simp [shiftE, hbuf]
  simp [jsonText, to_json, serialize, write_delimiter, serialize_integral,
    hlen, hW, intDecimal_ofNat, write_escaped_eq, escapeList, escapeChars,
    json_writer.write_char, json_writer.write_view, List.append_assoc,
    Except.map]

/-- Witness for C6: the spec's scenario — a variant holding
alternative 1 = `"hi"` encodes as exactly the two-field object. -/
theorem C6_variant_encoding_witness :
    (1 : Nat) < 2 ^ 64 ∧
    jsonText (.vStr ("hi")) = .ok ("\"hi\"".data) ∧
    jsonText (.vVariant 1 (.vStr ("hi"))) =
      .ok ("\x7b\"index\":1,\"value\":\"hi\"\x7d".data) := by
  have hhi : jsonText (.vStr ("hi")) = .ok ("\"hi\"".data) := by
    simp [jsonText, to_json, serialize, write_escaped_eq, escapeList,
      escapeChars, Except.map]
  refine ⟨by norm_num, hhi, ?_⟩
  have := C6_variant_encoding 1 (.vStr ("hi")) ("\"hi\"".data) (by norm_num) hhi
  simpa [natDecimal, natDecimalAux, digitChar] using this

/-- C7: an enumeration value whose descriptor yields a name encodes
as that name, quoted and escaped; otherwise the underlying integer
value of the discriminant is encoded; with a discriminant of any C++
underlying integer type the enum path always succeeds. -/
theorem C7_enum_encoding :
    (∀ (w : json_writer) (d : enum_descriptor) (v : Int) (n : String),
      d.name_of v = some n →
        serialize w (.vEnum d v) = .ok (w.write_escaped n)) ∧
    (∀ (w : json_writer) (d : enum_descriptor) (v : Int),
      d.name_of v = none →
        serialize w (.vEnum d v) = serialize_integral w v) ∧
    (∀ (w : json_writer) (d : enum_descriptor) (v : Int),
      v.natAbs < 2 ^ 64 → ∃ w2, serialize w (.vEnum d v) = .ok w2) := by
  refine ⟨?_, ?_, ?_⟩
  · intro w d v n h
    simp [serialize, serialize_enum, h]
  · intro w d v h
    simp [serialize, serialize_enum, h]
  · intro w d v hv
    cases hn : d.name_of v with
    | some n => exact ⟨w.write_escaped n, by simp [serialize, serialize_enum, hn]⟩
    | none =>
        have hlen : (intDecimal v).length ≤ 64 := by
          have := intDecimal_length_le v hv
          omega
        exact ⟨w.write_view (intDecimal v),
          by simp [serialize, serialize_enum, hn, serialize_integral, hlen]⟩

/-- Witness for C7: `Tone::Cool` has the registered name `"cool"`
and encodes as the quoted name; discriminant 5 has no registered
name and encodes as the number 5. -/
theorem C7_enum_encoding_witness :
    tone.name_of 1 = some ("cool") ∧
    jsonText (.vEnum tone 1) = .ok ("\"cool\"".data) ∧
    tone.name_of 5 = none ∧
    jsonText (.vEnum tone 5) = .ok ("5".data) := by
  refine ⟨by decide, ?_, by decide, ?_⟩
  · have := C7_enum_encoding.1 ⟨[]⟩ tone 1 ("cool") (by decide)
    simp [jsonText, to_json, this, write_escaped_eq, escapeList, escapeChars,
      Except.map]
  · have := C7_enum_encoding.2.1 ⟨[]⟩ tone 5 (by decide)
    simp [jsonText, to_json, this, serialize_integral, intDecimal, natDecimal,
      natDecimalAux, digitChar, json_writer.write_view, Except.map]

/-- C8 counterexample: on the descriptor with cases
`("x", 0), ("x", 1)` (a duplicate name), `name_of 1 = some ("x")` but
`value_of "x" = some 0`, so `value_of` does not invert `name_of`:
the two lookups are not inverse partial functions in the presence of
duplicates. -/
theorem C8_enum_lookup_counterexample :
    (enum_descriptor.mk [⟨"x", 0⟩, ⟨"x", 1⟩]).name_of 1 = some ("x") ∧
    (enum_descriptor.mk [⟨"x", 0⟩, ⟨"x", 1⟩]).value_of ("x") = some 0 ∧
    ¬ ((0 : Int) = 1) := by
  refine ⟨by decide, by decide, by decide⟩

/-- C8 (amended): `name_of` returns the name of the first case in
declaration order whose discriminant matches, `value_of` the
discriminant of the first case whose name matches (first case wins on
duplicates); when the descriptor's names are pairwise distinct,
`value_of` inverts `name_of`, and when its discriminants are pairwise
distinct, `name_of` inverts `value_of`. -/
theorem C8_enum_lookup :
    (∀ (d : enum_descriptor) (v : Int),
      d.name_of v
        = (d.cases.find? (fun c => decide (c.value = v))).map (fun c => c.name)) ∧
    (∀ (d : enum_descriptor) (n : String),
      d.value_of n
        = (d.cases.find? (fun c => decide (c.name = n))).map (fun c => c.value)) ∧
    (∀ d : enum_descriptor, (d.cases.map (fun c => c.name)).Nodup →
      ∀ (v : Int) (n : String), d.name_of v = some n → d.value_of n = some v) ∧
    (∀ d : enum_descriptor, (d.cases.map (fun c => c.value)).Nodup →
      ∀ (n : String) (v : Int), d.value_of n = some v → d.name_of v = some n) :=
  ⟨name_of_eq_find?, value_of_eq_find?, value_of_name_of, name_of_value_of⟩

/-- Witness for C8: the duplicate-free `Tone` descriptor, where the
lookups invert each other at `cool`/1. -/
theorem C8_enum_lookup_witness :
    (tone.cases.map (fun c => c.name)).Nodup ∧
    tone.name_of 1 = some ("cool") ∧
    tone.value_of ("cool") = some 1 := by
  refine ⟨by decide, by decide, ?_⟩
  exact C8_enum_lookup.2.2.1 tone (by decide) 1 ("cool") (by decide)

/-- C9: an integer is formatted through a 64-byte local buffer and a
floating-point value through a 128-byte one; encoding fails exactly
when the conversion cannot complete within that buffer, the failure
is a `serialization_error` carrying a message and a source location,
and the writer is unchanged at the throw point — nothing is written
for that number on failure. -/
theorem C9_numeric_conversion_failure :
    (∀ (w : json_writer) (v : Int),
      ((intDecimal v).length ≤ 64 →
        serialize_integral w v = .ok (w.write_view (intDecimal v))) ∧
      (64 < (intDecimal v).length →
        serialize_integral w v =
          .error (⟨"integral conversion failed", integral_error_loc⟩, w))) ∧
    (∀ (α : Type) (float_chars : α → List Char) (w : json_writer) (x : α),
      ((float_chars x).length ≤ 128 →
        serialize_floating float_chars w x = .ok (w.write_view (float_chars x))) ∧
      (128 < (float_chars x).length →
        serialize_floating float_chars w x =
          .error (⟨"floating conversion failed", floating_error_loc⟩, w))) := by
  constructor
  · intro w v
    constructor
    · intro h; simp [serialize_integral, h]
    · intro h
      have hn : ¬ (intDecimal v).length ≤ 64 := by omega
      simp [serialize_integral, hn]
  · intro α float_chars w x
    constructor
    · intro h; simp [serialize_floating, h]
    · intro h
      have hn : ¬ (float_chars x).length ≤ 128 := by omega
      simp [serialize_floating, hn]

/-- Witness for C9: the value 0 fits its buffer and succeeds; an
(abstracted) 129-character floating conversion overflows the 128-byte
buffer and fails with the error carrying message and location, the
writer untouched. -/
theorem C9_numeric_conversion_failure_witness :
    (intDecimal 0).length ≤ 64 ∧
    serialize_integral ⟨[]⟩ 0 = .ok ⟨['0']⟩ ∧
    128 < (List.replicate 129 'x').length ∧
    serialize_floating (fun _ : Unit => List.replicate 129 'x') ⟨[]⟩ () =
      .error (⟨"floating conversion failed", floating_error_loc⟩, ⟨[]⟩) := by
  refine ⟨by decide, ?_, by simp, ?_⟩
  · have := (C9_numeric_conversion_failure.1 ⟨[]⟩ 0).1 (by decide)
    simpa [intDecimal, natDecimal, json_writer.write_view] using this
  · exact (C9_numeric_conversion_failure.2 Unit
      (fun _ => List.replicate 129 'x') ⟨[]⟩ ()).2 (by simp)

/-- C10: `serialize` only appends — on success the starting buffer is
an unchanged prefix of the final buffer and the appended suffix is
exactly what `serialize` produces on an empty writer, hence depends
only on the value; `to_json` is `serialize` on an empty writer. -/
theorem C10_serialize_append_only :
    (∀ (v : Value) (w w2 : json_writer), serialize w v = .ok w2 →
      ∃ s : List Char, w2.buffer = w.buffer ++ s ∧ serialize ⟨[]⟩ v = .ok ⟨s⟩) ∧
    (∀ v : Value, to_json v = serialize ⟨[]⟩ v) := by
  constructor
  · intro v w w2 h
    rw [serialize_shift v w] at h
    cases hx : serialize ⟨[]⟩ v with
    | ok r =>
        rw [hx] at h
        simp only [shiftE] at h
        refine ⟨r.buffer, ?_, rfl⟩
        cases h
        rfl
    | error err =>
        obtain ⟨e, rr⟩ := err
        rw [hx] at h
        simp [shiftE] at h
  · intro v; rfl

/-- Witness for C10: serializing `true` onto a writer already holding
`x` appends exactly `true`. -/
theorem C10_serialize_append_only_witness :
    serialize ⟨['x']⟩ (.vBool true) = .ok ⟨'x' :: "true".data⟩ ∧
    (∃ s : List Char, ('x' :: "true".data : List Char) = ['x'] ++ s ∧
      serialize ⟨[]⟩ (.vBool true) = .ok ⟨s⟩) := by
  have h : serialize ⟨['x']⟩ (.vBool true) = .ok ⟨'x' :: "true".data⟩ := by
    simp [serialize, json_writer.write_str]
  refine ⟨h, ?_⟩
  have := C10_serialize_append_only.1 (.vBool true) ⟨['x']⟩ ⟨'x' :: "true".data⟩ h
  simpa using this

end Seri
